import Mathlib

/-!
Verification of the record cache in `src/data/cache.py`.

The cache keeps five category stores, each a mapping from a ticker string
to an ordered list of records (Python dicts).  New data is reconciled
against existing data by `_merge_data`, keyed by a category-specific
identity field, and the whole state is persisted to a durable store after
every `set` call.

Modelling choices:
* A record is an association list from field names to values; field lookup
  (`item[key_field]` in Python) returns `Option Value`, `none` modelling a
  raised `KeyError`.
* `_merge_data` is `Option`-valued: `none` models the call raising
  `KeyError` while building the key set or filtering the incoming batch.
* A category store is modelled as the lookup function of the Python dict
  (`String → Option (List Rec)`); `dictGet` is `d.get(t)`, `dictSet` is
  `d[t] = v`.
* The durable store is an external collaborator; per the design contract it
  is an opaque blob store with lossless round-trip, so the persisted row is
  modelled as holding the five category stores directly, and a boolean
  `dbOk` models whether the synchronous write succeeds.
-/

/-- Field values of a record: a tagged union of the JSON-like scalar
values the cache stores. -/
inductive Value where
  | str (s : String)
  | num (n : Int)
  | bool (b : Bool)
  | null
deriving DecidableEq, Repr

/-- A record is a Python dict: an association list from field names to
values. -/
abbrev Rec := List (String × Value)

/-- `item[f]` without the raise: the value of field `f` in record `r`,
or `none` when the field is missing (Python raises `KeyError`). -/
def lookupField (r : Rec) (f : String) : Option Value :=
  (r.find? (fun p => p.1 = f)).map (fun p => p.2)

/-- `{item[key_field] for item in items}` from `_merge_data`, line 71:
collect the identity-field value of every existing record, failing
(`KeyError`) as soon as one record lacks the field.  Only membership in
the resulting collection is ever used, so a list models the Python set. -/
def collectKeys (items : List Rec) (f : String) : Option (List Value) :=
  match items with
  | [] => some []
  | item :: rest =>
      match lookupField item f with
      | none => none
      | some v =>
          match collectKeys rest f with
          | none => none
          | some vs => some (v :: vs)

/-- `[item for item in new_data if item[key_field] not in existing_keys]`
from `_merge_data`, line 75: keep the incoming records whose identity
value is not among `keys`, failing (`KeyError`) if any incoming record
lacks the field (the comprehension evaluates `item[key_field]` for every
item). -/
def filterNew (newData : List Rec) (f : String) (keys : List Value) :
    Option (List Rec) :=
  match newData with
  | [] => some []
  | item :: rest =>
      match lookupField item f with
      | none => none
      | some v =>
          match filterNew rest f keys with
          | none => none
          | some tail => some (if v ∈ keys then tail else item :: tail)

/-- `_merge_data(existing, new_data, key_field)`, lines 65-76.
`existing` is `None` or a list; Python's `if not existing` treats `None`
and the empty list alike and returns `new_data` unchanged.  Otherwise the
existing records are kept in order, followed by the incoming records whose
identity value is not among the existing keys. -/
def merge_data (existing : Option (List Rec)) (newData : List Rec)
    (keyField : String) : Option (List Rec) :=
  match existing with
  | none => some newData
  | some [] => some newData
  | some es =>
      match collectKeys es keyField with
      | none => none
      | some keys =>
          match filterNew newData keyField keys with
          | none => none
          | some kept => some (es ++ kept)

/-- The five record categories of the cache. -/
inductive Category where
  | prices
  | financialMetrics
  | lineItems
  | insiderTrades
  | companyNews
deriving DecidableEq, Repr

/-- The identity field of each category, as hard-coded in the five
`set_*` methods (lines 87, 100, 113, 126, 139). -/
def keyField : Category → String
  | .prices => "time"
  | .financialMetrics => "report_period"
  | .lineItems => "report_period"
  | .insiderTrades => "filing_date"
  | .companyNews => "date"

/-- A category store: the lookup function of the Python dict mapping a
ticker to its ordered record sequence. -/
abbrev Store := String → Option (List Rec)

/-- `d.get(ticker)`. -/
def dictGet (d : Store) (t : String) : Option (List Rec) := d t

/-- `d[ticker] = v`. -/
def dictSet (d : Store) (t : String) (v : List Rec) : Store :=
  fun t' => if t' = t then some v else d t'

/-- The in-memory state of the cache: the five category stores
(`_prices_cache`, ..., `_company_news_cache`). -/
structure CacheState where
  prices : Store
  financialMetrics : Store
  lineItems : Store
  insiderTrades : Store
  companyNews : Store

/-- The store of a given category. -/
def CacheState.store (s : CacheState) : Category → Store
  | .prices => s.prices
  | .financialMetrics => s.financialMetrics
  | .lineItems => s.lineItems
  | .insiderTrades => s.insiderTrades
  | .companyNews => s.companyNews

/-- Replace the store of a given category. -/
def CacheState.setStore (s : CacheState) : Category → Store → CacheState
  | .prices, d => { s with prices := d }
  | .financialMetrics, d => { s with financialMetrics := d }
  | .lineItems, d => { s with lineItems := d }
  | .insiderTrades, d => { s with insiderTrades := d }
  | .companyNews, d => { s with companyNews := d }

/-- The empty state every `Cache.__init__` starts from (lines 10-14). -/
def emptyState : CacheState :=
  ⟨fun _ => none, fun _ => none, fun _ => none, fun _ => none, fun _ => none⟩

/-- Errors a cache operation can raise: a `KeyError` from `_merge_data`
on a record missing its identity field, or a storage I/O failure from the
durable store. -/
inductive Err where
  | keyError
  | storageError
deriving DecidableEq, Repr

/-- The cache object together with the durable store it persists to.
The durable row (fixed key `'cache'`) holds the five serialized category
blobs; serialization is lossless by the durable-store contract, so the row
is modelled as the `CacheState` it encodes, `none` when no snapshot
exists. -/
structure World where
  cache : CacheState
  db : Option CacheState

/-- `save_to_db` (lines 35-50): upsert the whole state under the fixed
key.  `dbOk` models the durable store accepting the synchronous write;
when it fails the exception surfaces and nothing is written. -/
def save_to_db (dbOk : Bool) (w : World) : World × Option Err :=
  if dbOk then ({ w with db := some w.cache }, none)
  else (w, some .storageError)

/-- `load_from_db` (lines 52-63): if the snapshot row exists, replace all
five in-memory stores wholesale; otherwise leave the state as it is. -/
def load_from_db (w : World) : World :=
  match w.db with
  | some st => { w with cache := st }
  | none => w

/-- `Cache.__init__` (lines 9-17): start with all stores empty, then
hydrate from any existing snapshot in the durable store. -/
def Cache.init (db : Option CacheState) : World :=
  load_from_db { cache := emptyState, db := db }

/-- One `set` call: category, ticker and the incoming batch. -/
structure SetOp where
  cat : Category
  ticker : String
  data : List Rec

/-- The shared shape of the five `set_*` methods (e.g. `set_prices`,
lines 82-89): merge the incoming batch into the ticker's entry, store the
result, then persist the whole state.  A `KeyError` inside `_merge_data`
propagates before the assignment, leaving the world unchanged; a
persistence failure propagates after the assignment, leaving memory ahead
of disk. -/
def setData (dbOk : Bool) (w : World) (op : SetOp) : World × Option Err :=
  match merge_data (dictGet (w.cache.store op.cat) op.ticker) op.data
      (keyField op.cat) with
  | none => (w, some .keyError)
  | some merged =>
      let st := dictSet (w.cache.store op.cat) op.ticker merged
      save_to_db dbOk { w with cache := w.cache.setStore op.cat st }

/-- `set_prices` (lines 82-89). -/
def set_prices (dbOk : Bool) (w : World) (t : String) (data : List Rec) :
    World × Option Err :=
  setData dbOk w ⟨.prices, t, data⟩

/-- `get_prices` (lines 78-80): a pure dict lookup, no mutation. -/
def get_prices (w : World) (t : String) : Option (List Rec) :=
  dictGet w.cache.prices t

/-- `get_company_news` (lines 130-132): a pure dict lookup, no mutation. -/
def get_company_news (w : World) (t : String) : Option (List Rec) :=
  dictGet w.cache.companyNews t

/-- `set_company_news` (lines 134-141). -/
def set_company_news (dbOk : Bool) (w : World) (t : String)
    (data : List Rec) : World × Option Err :=
  setData dbOk w ⟨.companyNews, t, data⟩

/-- A fresh cache backed by an empty durable store. -/
def initWorld : World := Cache.init none

/-- Run a sequence of `set` calls.  A call that raises leaves the world
unchanged (the exception escapes before any mutation), matching the
Python control flow. -/
def run (dbOk : Bool) (w : World) : List SetOp → World
  | [] => w
  | op :: rest => run dbOk (setData dbOk w op).1 rest

/-- The uniqueness invariant of a ticker's sequence: no two records share
the same identity-field value. -/
def keysUnique (rs : List Rec) (f : String) : Prop :=
  (rs.map (fun r => lookupField r f)).Nodup

instance (rs : List Rec) (f : String) : Decidable (keysUnique rs f) := by
  unfold keysUnique; infer_instance

/-! ### Helper lemmas about the merge primitive -/

lemma collectKeys_eq_map {es : List Rec} {f : String} {ks : List Value}
    (h : collectKeys es f = some ks) :
    es.map (fun r => lookupField r f) = ks.map some := by
  induction es generalizing ks with
  | nil =>
      simp [collectKeys] at h
      simp [← h]
  | cons item rest ih =>
      rw [collectKeys] at h
      cases hv : lookupField item f with
      | none => rw [hv] at h; exact absurd h (by simp)
      | some v =>
          rw [hv] at h
          cases hrest : collectKeys rest f with
          | none => rw [hrest] at h; exact absurd h (by simp)
          | some vs =>
              rw [hrest] at h
              simp only [Option.some.injEq] at h
              subst h
              simp [hv, ih hrest]

lemma collectKeys_isSome {es : List Rec} {f : String}
    (h : ∀ r ∈ es, (lookupField r f).isSome) :
    ∃ ks, collectKeys es f = some ks := by
  induction es with
  | nil => exact ⟨[], rfl⟩
  | cons item rest ih =>
      obtain ⟨v, hv⟩ := Option.isSome_iff_exists.mp (h item (by simp))
      obtain ⟨ks, hks⟩ := ih (fun r hr => h r (by simp [hr]))
      exact ⟨v :: ks, by rw [collectKeys, hv, hks]⟩

lemma filterNew_eq {I : List Rec} {f : String} {ks : List Value}
    (h : ∀ r ∈ I, (lookupField r f).isSome) :
    filterNew I f ks =
      some (I.filter (fun r => decide (lookupField r f ∉ ks.map some))) := by
  induction I with
  | nil => rfl
  | cons item rest ih =>
      obtain ⟨v, hv⟩ := Option.isSome_iff_exists.mp (h item (by simp))
      rw [filterNew, hv, ih (fun r hr => h r (by simp [hr]))]
      by_cases hmem : v ∈ ks
      · have hnall : ¬∀ x ∈ ks, ¬some x = lookupField item f :=
          fun hall => hall v hmem hv.symm
        simp [List.filter_cons, hmem, hnall]
      · have hall : ∀ x ∈ ks, ¬some x = lookupField item f := by
          intro x hx heq
          rw [hv] at heq
          exact hmem (Option.some.inj heq ▸ hx)
        simp only [List.filter_cons, hmem, if_false]
        simp only [decide_eq_true_eq]
        have hnot : lookupField item f ∉ List.map some ks := by
          rw [hv]
          simp only [List.mem_map]
          rintro ⟨x, hx, hxe⟩
          exact hmem (Option.some.inj hxe ▸ hx)
        rw [if_pos hnot]

/-- The merge equation for a non-empty existing sequence, under the data
contract that every record carries the identity field. -/
lemma merge_data_eq {E I : List Rec} {f : String} (hne : E ≠ [])
    (hE : ∀ r ∈ E, (lookupField r f).isSome)
    (hI : ∀ r ∈ I, (lookupField r f).isSome) :
    merge_data (some E) I f =
      some (E ++ I.filter
        (fun r => decide (lookupField r f ∉ E.map (fun e => lookupField e f)))) := by
  obtain ⟨e, es, rfl⟩ := List.exists_cons_of_ne_nil hne
  obtain ⟨ks, hks⟩ := collectKeys_isSome hE
  rw [collectKeys_eq_map hks]
  simp only [merge_data, hks, filterNew_eq hI]

lemma filterNew_sublist {I : List Rec} {f : String} {ks : List Value}
    {kept : List Rec} (h : filterNew I f ks = some kept) :
    kept.Sublist I := by
  induction I generalizing kept with
  | nil =>
      simp [filterNew] at h
      simp [← h]
  | cons item rest ih =>
      rw [filterNew] at h
      cases hv : lookupField item f with
      | none => rw [hv] at h; exact absurd h (by simp)
      | some v =>
          rw [hv] at h
          cases htail : filterNew rest f ks with
          | none => rw [htail] at h; exact absurd h (by simp)
          | some tail =>
              rw [htail] at h
              simp only [Option.some.injEq] at h
              subst h
              by_cases hmem : v ∈ ks
              · simpa [hmem] using (ih htail).cons item
              · simpa [hmem] using (ih htail).cons₂ item

lemma filterNew_keys {I : List Rec} {f : String} {ks : List Value}
    {kept : List Rec} (h : filterNew I f ks = some kept) :
    ∀ r ∈ kept, ∃ v, lookupField r f = some v ∧ v ∉ ks := by
  induction I generalizing kept with
  | nil =>
      simp only [filterNew, Option.some.injEq] at h
      subst h
      simp
  | cons item rest ih =>
      rw [filterNew] at h
      cases hv : lookupField item f with
      | none => rw [hv] at h; exact absurd h (by simp)
      | some v =>
          rw [hv] at h
          cases htail : filterNew rest f ks with
          | none => rw [htail] at h; exact absurd h (by simp)
          | some tail =>
              rw [htail] at h
              simp only [Option.some.injEq] at h
              subst h
              by_cases hmem : v ∈ ks
              · simpa [hmem] using ih htail
              · intro r hr
                rw [if_neg hmem] at hr
                rcases List.mem_cons.mp hr with hri | hrt
                · exact ⟨v, hri ▸ hv, hmem⟩
                · exact ih htail r hrt

lemma filterNew_none {I : List Rec} {f : String} (ks : List Value)
    (h : ∃ r ∈ I, lookupField r f = none) :
    filterNew I f ks = none := by
  induction I with
  | nil => simp at h
  | cons item rest ih =>
      rw [filterNew]
      rcases h with ⟨r, hr, hrnone⟩
      rcases List.mem_cons.mp hr with hri | hrt
      · rw [hri] at hrnone
        rw [hrnone]
      · cases hv : lookupField item f with
        | none => rfl
        | some v => rw [ih ⟨r, hrt, hrnone⟩]

/-- Merging preserves the per-ticker uniqueness of identity-field values,
provided the incoming batch itself has pairwise-distinct identity values. -/
lemma merge_data_nodupKeys {ex : Option (List Rec)} {data : List Rec}
    {f : String} {merged : List Rec}
    (hm : merge_data ex data f = some merged)
    (hex : ∀ es, ex = some es → keysUnique es f)
    (hdata : (data.map (fun r => lookupField r f)).Nodup) :
    keysUnique merged f := by
  match ex with
  | none =>
      simp only [merge_data, Option.some.injEq] at hm
      exact hm ▸ hdata
  | some [] =>
      simp only [merge_data, Option.some.injEq] at hm
      exact hm ▸ hdata
  | some (e :: es) =>
      simp only [merge_data] at hm
      split at hm
      next => exact absurd hm (by simp)
      next ks hks =>
        split at hm
        next => exact absurd hm (by simp)
        next kept hkept =>
          simp only [Option.some.injEq] at hm
          subst hm
          have hesNodup : keysUnique (e :: es) f := hex _ rfl
          have hmapEq := collectKeys_eq_map hks
          have hkeptNodup :
              ((kept.map (fun r => lookupField r f)).Nodup) :=
            ((filterNew_sublist hkept).map
              (fun r => lookupField r f)).nodup hdata
          unfold keysUnique at hesNodup ⊢
          rw [List.map_append, List.nodup_append]
          refine ⟨hesNodup, hkeptNodup, ?_⟩
          intro x hxes hxkept
          rcases List.mem_map.mp hxkept with ⟨r, hr, hrx⟩
          obtain ⟨v, hv, hvks⟩ := filterNew_keys hkept r hr
          rw [hmapEq] at hxes
          rcases List.mem_map.mp hxes with ⟨u, hu, hux⟩
          rw [← hrx, hv] at hux
          exact hvks (Option.some.inj hux ▸ hu)

/-! ### Helper lemmas about the cache state -/

lemma store_setStore_self (s : CacheState) (c : Category) (d : Store) :
    (s.setStore c d).store c = d := by
  cases c <;> rfl

lemma store_setStore_ne (s : CacheState) {c c' : Category} (d : Store)
    (h : c' ≠ c) : (s.setStore c d).store c' = s.store c' := by
  cases c <;> cases c' <;> first | rfl | exact absurd rfl h

lemma dictGet_dictSet_self (d : Store) (t : String) (v : List Rec) :
    dictGet (dictSet d t v) t = some v := by
  simp [dictGet, dictSet]

lemma dictGet_dictSet_ne (d : Store) {t t' : String} (v : List Rec)
    (h : t' ≠ t) : dictGet (dictSet d t v) t' = dictGet d t' := by
  simp [dictGet, dictSet, h]

lemma save_to_db_cache (dbOk : Bool) (w : World) :
    (save_to_db dbOk w).1.cache = w.cache := by
  cases dbOk <;> rfl

/-- A `set` call touches no entry other than its own category/ticker. -/
lemma setData_get_other (dbOk : Bool) (w : World) (op : SetOp)
    (cat : Category) (t : String) (h : ¬(cat = op.cat ∧ t = op.ticker)) :
    dictGet ((setData dbOk w op).1.cache.store cat) t =
      dictGet (w.cache.store cat) t := by
  cases hm : merge_data (dictGet (w.cache.store op.cat) op.ticker) op.data
      (keyField op.cat) with
  | none => simp [setData, hm]
  | some merged =>
      simp only [setData, hm]
      rw [save_to_db_cache]
      by_cases hc : cat = op.cat
      · subst hc
        have ht : t ≠ op.ticker := fun he => h ⟨rfl, he⟩
        rw [store_setStore_self, dictGet_dictSet_ne _ _ ht]
      · rw [store_setStore_ne _ _ hc]

/-- The uniqueness invariant over a whole cache state. -/
def CacheInv (s : CacheState) : Prop :=
  ∀ cat t rs, dictGet (s.store cat) t = some rs → keysUnique rs (keyField cat)

lemma inv_empty : CacheInv emptyState := by
  intro cat t rs hrs
  cases cat <;> exact absurd hrs (by simp [emptyState, dictGet, CacheState.store])

/-- One `set` call preserves the uniqueness invariant, provided its batch
has pairwise-distinct identity values. -/
lemma setData_inv (dbOk : Bool) (w : World) (op : SetOp) (hw : CacheInv w.cache)
    (hop : (op.data.map (fun r => lookupField r (keyField op.cat))).Nodup) :
    CacheInv (setData dbOk w op).1.cache := by
  intro cat t rs hrs
  by_cases hct : cat = op.cat ∧ t = op.ticker
  · obtain ⟨hc, ht⟩ := hct
    subst hc
    subst ht
    cases hm : merge_data (dictGet (w.cache.store op.cat) op.ticker) op.data
        (keyField op.cat) with
    | none =>
        simp only [setData, hm] at hrs
        exact hw _ _ _ hrs
    | some merged =>
        simp only [setData, hm] at hrs
        rw [save_to_db_cache, store_setStore_self, dictGet_dictSet_self] at hrs
        obtain rfl : merged = rs := Option.some.inj hrs
        exact merge_data_nodupKeys hm (fun es hes => hw op.cat op.ticker es hes)
          hop
  · rw [setData_get_other dbOk w op cat t hct] at hrs
    exact hw _ _ _ hrs

lemma run_inv (dbOk : Bool) (ops : List SetOp) :
    ∀ w : World, CacheInv w.cache →
    (∀ op ∈ ops, (op.data.map (fun r => lookupField r (keyField op.cat))).Nodup) →
    CacheInv (run dbOk w ops).cache := by
  induction ops with
  | nil => intro w hw _; exact hw
  | cons op rest ih =>
      intro w hw hops
      show CacheInv (run dbOk (setData dbOk w op).1 rest).cache
      exact ih _ (setData_inv dbOk w op hw (hops op (by simp)))
        (fun o ho => hops o (by simp [ho]))

lemma run_get_other (dbOk : Bool) (ops : List SetOp) :
    ∀ (w : World) (cat : Category) (t : String),
    (∀ op ∈ ops, ¬(cat = op.cat ∧ t = op.ticker)) →
    dictGet ((run dbOk w ops).cache.store cat) t =
      dictGet (w.cache.store cat) t := by
  induction ops with
  | nil => intro w cat t _; rfl
  | cons op rest ih =>
      intro w cat t hops
      show dictGet ((run dbOk (setData dbOk w op).1 rest).cache.store cat) t = _
      rw [ih _ cat t (fun o ho => hops o (by simp [ho])),
        setData_get_other dbOk w op cat t (hops op (by simp))]

/-! ### Claim theorems -/

/-- Claim C1: for every non-empty existing sequence `E`, incoming sequence
`I` and identity field `f` (all records carrying `f`), the merge equals
`E` unchanged, in original order, followed by exactly those records of
`I`, in `I`'s original relative order, whose `f`-value is not among the
`f`-values of `E`. -/
theorem merge_nonempty_append_filter (E I : List Rec) (f : String)
    (hne : E ≠ []) (hE : ∀ r ∈ E, (lookupField r f).isSome)
    (hI : ∀ r ∈ I, (lookupField r f).isSome) :
    merge_data (some E) I f =
      some (E ++ I.filter
        (fun r => decide (lookupField r f ∉ E.map (fun e => lookupField e f)))) :=
  merge_data_eq hne hE hI

/-- Concrete instance of `merge_nonempty_append_filter`. -/
theorem merge_nonempty_append_filter_witness :
    merge_data (some [[("time", Value.str "a")]])
      [[("time", Value.str "a")], [("time", Value.str "b")]] "time" =
      some ([[("time", Value.str "a")]] ++
        [[("time", Value.str "a")], [("time", Value.str "b")]].filter
          (fun r => decide (lookupField r "time" ∉
            [[("time", Value.str "a")]].map (fun e => lookupField e "time")))) :=
  merge_nonempty_append_filter _ _ _ (by decide) (by decide) (by decide)

/-- Claim C4: if the existing sequence is absent (`None`) or empty, the
merge returns exactly the incoming sequence, same contents, same order. -/
theorem merge_empty_existing (I : List Rec) (f : String) :
    merge_data none I f = some I ∧ merge_data (some []) I f = some I :=
  ⟨rfl, rfl⟩

/-- Claim C5: re-applying the same incoming batch is idempotent,
`merge(merge(E, I, f), I, f) = merge(E, I, f)`, whenever every record of
`E` and `I` carries the field `f`. -/
theorem merge_idempotent (E I : List Rec) (f : String)
    (hE : ∀ r ∈ E, (lookupField r f).isSome)
    (hI : ∀ r ∈ I, (lookupField r f).isSome) :
    (merge_data (some E) I f).bind (fun m => merge_data (some m) I f) =
      merge_data (some E) I f := by
  cases E with
  | nil =>
      show (some I).bind (fun m => merge_data (some m) I f) = some I
      rw [Option.some_bind]
      cases I with
      | nil => rfl
      | cons i is =>
          rw [merge_data_eq (by simp) hI hI]
          have hfil : (i :: is).filter
              (fun r => decide (lookupField r f ∉
                (i :: is).map (fun e => lookupField e f))) = [] := by
            rw [List.filter_eq_nil_iff]
            intro r hr
            simp only [decide_eq_true_eq, Decidable.not_not]
            exact List.mem_map_of_mem _ hr
          rw [hfil, List.append_nil]
  | cons e es =>
      have hEne : e :: es ≠ [] := by simp
      rw [merge_data_eq hEne hE hI, Option.some_bind]
      set p : Rec → Bool := fun r => decide (lookupField r f ∉
        (e :: es).map (fun x => lookupField x f)) with hp
      have hMf : ∀ r ∈ (e :: es) ++ I.filter p, (lookupField r f).isSome := by
        intro r hr
        rcases List.mem_append.mp hr with h1 | h2
        · exact hE r h1
        · exact hI r (List.mem_of_mem_filter h2)
      have hMne : (e :: es) ++ I.filter p ≠ [] := by simp
      rw [merge_data_eq hMne hMf hI]
      have hfil : I.filter (fun r => decide (lookupField r f ∉
          ((e :: es) ++ I.filter p).map (fun x => lookupField x f))) = [] := by
        rw [List.filter_eq_nil_iff]
        intro r hr
        simp only [decide_eq_true_eq, Decidable.not_not, List.map_append,
          List.mem_append]
        by_cases hmem : lookupField r f ∈ (e :: es).map (fun x => lookupField x f)
        · exact Or.inl hmem
        · refine Or.inr (List.mem_map_of_mem _ ?_)
          exact List.mem_filter.mpr ⟨hr, decide_eq_true hmem⟩
      rw [hfil, List.append_nil]

/-- Concrete instance of `merge_idempotent`. -/
theorem merge_idempotent_witness :
    (merge_data (some [[("time", Value.str "a")]])
        [[("time", Value.str "b")]] "time").bind
      (fun m => merge_data (some m) [[("time", Value.str "b")]] "time") =
      merge_data (some [[("time", Value.str "a")]])
        [[("time", Value.str "b")]] "time" :=
  merge_idempotent _ _ _ (by decide) (by decide)

/-- Claim C3 counterexample: two incoming records share the identity
value `"d1"`, which is absent from the existing sequence, yet the merge
keeps BOTH of them — the later duplicate within the batch is not dropped,
because the membership check is only against the keys of `existing`. -/
theorem merge_batch_duplicates_cex :
    lookupField [("time", Value.str "d1"), ("close", Value.num 1)] "time" =
      lookupField [("time", Value.str "d1"), ("close", Value.num 2)] "time" ∧
    lookupField [("time", Value.str "d1"), ("close", Value.num 1)] "time" ∉
      [[("time", Value.str "d0")]].map (fun e => lookupField e "time") ∧
    merge_data (some [[("time", Value.str "d0")]])
      [[("time", Value.str "d1"), ("close", Value.num 1)],
       [("time", Value.str "d1"), ("close", Value.num 2)]] "time" =
      some [[("time", Value.str "d0")],
        [("time", Value.str "d1"), ("close", Value.num 1)],
        [("time", Value.str "d1"), ("close", Value.num 2)]] := by
  refine ⟨rfl, by decide, by decide⟩

/-- Claim C3 as amended: when `incoming` contains several records sharing
an identity value not present in `existing`, the merge keeps ALL of them
(none of the within-batch duplicates is dropped): the result contains as
many records with that identity value as `incoming` does. -/
theorem merge_keeps_all_batch_duplicates (E I : List Rec) (f : String)
    (v : Value) (hne : E ≠ [])
    (hE : ∀ r ∈ E, (lookupField r f).isSome)
    (hI : ∀ r ∈ I, (lookupField r f).isSome)
    (hv : some v ∉ E.map (fun e => lookupField e f)) :
    ((merge_data (some E) I f).getD []).countP
        (fun r => decide (lookupField r f = some v)) =
      I.countP (fun r => decide (lookupField r f = some v)) := by
  rw [merge_data_eq hne hE hI, Option.getD_some, List.countP_append]
  have hEzero : E.countP (fun r => decide (lookupField r f = some v)) = 0 := by
    rw [List.countP_eq_zero]
    intro r hr
    simp only [decide_eq_true_eq]
    intro heq
    have hmem : lookupField r f ∈ E.map (fun e => lookupField e f) :=
      List.mem_map_of_mem _ hr
    rw [heq] at hmem
    exact hv hmem
  rw [hEzero, Nat.zero_add, List.countP_filter]
  refine List.countP_congr ?_
  intro r hr
  simp only [Bool.and_eq_true, decide_eq_true_eq]
  constructor
  · exact fun h => h.1
  · intro heq
    refine ⟨heq, ?_⟩
    rw [heq]
    exact hv

/-- Concrete instance of `merge_keeps_all_batch_duplicates`: both records
with identity value `"d1"` survive the merge. -/
theorem merge_keeps_all_batch_duplicates_witness :
    ((merge_data (some [[("time", Value.str "e0")]])
        [[("time", Value.str "e1"), ("close", Value.num 1)],
         [("time", Value.str "e1"), ("close", Value.num 2)]] "time").getD
        []).countP
        (fun r => decide (lookupField r "time" = some (Value.str "e1"))) =
      [[("time", Value.str "e1"), ("close", Value.num 1)],
       [("time", Value.str "e1"), ("close", Value.num 2)]].countP
        (fun r => decide (lookupField r "time" = some (Value.str "e1"))) :=
  merge_keeps_all_batch_duplicates _ _ _ _ (by decide) (by decide) (by decide)
    (by decide)

/-- Claim C2 counterexample: a single `set_prices` call on an empty cache
whose batch repeats the identity value `"2024-01-01"` stores BOTH records,
so the stored sequence violates the uniqueness invariant. -/
theorem set_duplicate_batch_cex :
    get_prices (set_prices true initWorld "AAPL"
        [[("time", Value.str "2024-01-01"), ("close", Value.num 100)],
         [("time", Value.str "2024-01-01"), ("close", Value.num 999)]]).1
        "AAPL" =
      some [[("time", Value.str "2024-01-01"), ("close", Value.num 100)],
        [("time", Value.str "2024-01-01"), ("close", Value.num 999)]] ∧
    ¬keysUnique
      [[("time", Value.str "2024-01-01"), ("close", Value.num 100)],
       [("time", Value.str "2024-01-01"), ("close", Value.num 999)]]
      (keyField Category.prices) := by
  exact ⟨by decide, by decide⟩

/-- Claim C2 as amended: after any sequence of `set` calls starting from
the empty cache, every stored sequence has pairwise-distinct
identity-field values, PROVIDED each incoming batch has pairwise-distinct
identity-field values within itself (the code never dedups within a
batch, so this proviso is necessary). -/
theorem cache_set_keysUnique (dbOk : Bool) (ops : List SetOp)
    (hops : ∀ op ∈ ops,
      (op.data.map (fun r => lookupField r (keyField op.cat))).Nodup) :
    ∀ (cat : Category) (t : String) (rs : List Rec),
      dictGet ((run dbOk initWorld ops).cache.store cat) t = some rs →
      keysUnique rs (keyField cat) :=
  run_inv dbOk ops initWorld inv_empty hops

/-- Concrete instance of `cache_set_keysUnique`. -/
theorem cache_set_keysUnique_witness :
    keysUnique [[("time", Value.str "a")]] (keyField Category.prices) :=
  cache_set_keysUnique true [⟨Category.prices, "AAPL",
      [[("time", Value.str "a")]]⟩]
    (by decide) Category.prices "AAPL" _ (by decide)

/-- Claim C6: `save()` followed by constructing a fresh cache backed by
the same durable store reproduces the in-memory state: per category, per
ticker, record for record, in order. -/
theorem save_load_roundtrip (w : World) (cat : Category) (t : String) :
    dictGet ((Cache.init (save_to_db true w).1.db).cache.store cat) t =
      dictGet (w.cache.store cat) t := rfl

/-- Claim C7: when the persistence step of a `set` call fails, the error
surfaces to the caller, the in-memory store already holds the merged
sequence, and the durable store is unchanged (memory ahead of disk). -/
theorem set_persist_failure_surfaces (w : World) (op : SetOp)
    (merged : List Rec)
    (h : merge_data (dictGet (w.cache.store op.cat) op.ticker) op.data
      (keyField op.cat) = some merged) :
    (setData false w op).2 = some Err.storageError ∧
    dictGet ((setData false w op).1.cache.store op.cat) op.ticker =
      some merged ∧
    (setData false w op).1.db = w.db := by
  have hset : setData false w op =
      (⟨w.cache.setStore op.cat
          (dictSet (w.cache.store op.cat) op.ticker merged), w.db⟩,
        some Err.storageError) := by
    simp only [setData, h]
    rfl
  rw [hset]
  exact ⟨rfl, by rw [store_setStore_self, dictGet_dictSet_self], rfl⟩

/-- Concrete instance of `set_persist_failure_surfaces`. -/
theorem set_persist_failure_surfaces_witness :
    (setData false initWorld
        ⟨Category.prices, "AAPL", [[("time", Value.str "a")]]⟩).2 =
      some Err.storageError ∧
    dictGet ((setData false initWorld
        ⟨Category.prices, "AAPL", [[("time", Value.str "a")]]⟩).1.cache.store
        Category.prices) "AAPL" = some [[("time", Value.str "a")]] ∧
    (setData false initWorld
        ⟨Category.prices, "AAPL", [[("time", Value.str "a")]]⟩).1.db =
      initWorld.db :=
  set_persist_failure_surfaces initWorld
    ⟨Category.prices, "AAPL", [[("time", Value.str "a")]]⟩
    [[("time", Value.str "a")]] (by decide)

/-- Claim C8 counterexample: on an empty existing sequence, a record
missing the category's identity field is stored verbatim, with no error
reported — the data-contract violation is silently swallowed. -/
theorem set_missing_field_silent_cex :
    (set_prices true initWorld "AAPL" [[("close", Value.num 100)]]).2 =
      none ∧
    get_prices (set_prices true initWorld "AAPL"
        [[("close", Value.num 100)]]).1 "AAPL" =
      some [[("close", Value.num 100)]] ∧
    lookupField [("close", Value.num 100)] (keyField Category.prices) =
      none := by
  exact ⟨by decide, by decide, by decide⟩

/-- Claim C8 as amended: only when the ticker's existing sequence is
non-empty does a record lacking the identity field make `set` raise a
`KeyError` to the caller (leaving the whole world unchanged); with an
empty or absent existing sequence the batch is stored verbatim without
any field check. -/
theorem set_missing_field_raises (dbOk : Bool) (w : World) (op : SetOp)
    (es : List Rec) (r : Rec)
    (hes : dictGet (w.cache.store op.cat) op.ticker = some es)
    (hne : es ≠ []) (hr : r ∈ op.data)
    (hmiss : lookupField r (keyField op.cat) = none) :
    setData dbOk w op = (w, some Err.keyError) := by
  have hmerge : merge_data (some es) op.data (keyField op.cat) = none := by
    obtain ⟨e, es', rfl⟩ := List.exists_cons_of_ne_nil hne
    simp only [merge_data]
    split
    next => rfl
    next ks hks => rw [filterNew_none ks ⟨r, hr, hmiss⟩]
  simp only [setData, hes, hmerge]

/-- Concrete instance of `set_missing_field_raises`. -/
theorem set_missing_field_raises_witness :
    setData true (set_prices true initWorld "A"
        [[("time", Value.str "a")]]).1
      ⟨Category.prices, "A", [[("close", Value.num 1)]]⟩ =
      ((set_prices true initWorld "A" [[("time", Value.str "a")]]).1,
        some Err.keyError) :=
  set_missing_field_raises true _ _ [[("time", Value.str "a")]]
    [("close", Value.num 1)] (by decide) (by decide) (by decide) (by decide)

/-- Claim C9: a ticker never targeted by any `set` call in a category
reads back as the absent indicator `none` (not an error); the `get`
accessors are pure functions of the state, so the read itself mutates
nothing. -/
theorem get_unset_ticker_none (dbOk : Bool) (ops : List SetOp)
    (cat : Category) (t : String)
    (h : ∀ op ∈ ops, ¬(cat = op.cat ∧ t = op.ticker)) :
    dictGet ((run dbOk initWorld ops).cache.store cat) t = none := by
  rw [run_get_other dbOk ops initWorld cat t h]
  cases cat <;> rfl

/-- Concrete instance of `get_unset_ticker_none`. -/
theorem get_unset_ticker_none_witness :
    dictGet ((run true initWorld
        [⟨Category.prices, "AAPL", []⟩]).cache.store Category.companyNews)
      "NOPE" = none :=
  get_unset_ticker_none true [⟨Category.prices, "AAPL", []⟩]
    Category.companyNews "NOPE" (by decide)

/-- Claim C10: a `set` call on category `C` and ticker `t` leaves the
other four category stores untouched, and within `C` leaves every ticker
other than `t` untouched. -/
theorem set_frame (dbOk : Bool) (w : World) (op : SetOp) :
    (∀ c : Category, c ≠ op.cat →
      (setData dbOk w op).1.cache.store c = w.cache.store c) ∧
    (∀ t : String, t ≠ op.ticker →
      dictGet ((setData dbOk w op).1.cache.store op.cat) t =
        dictGet (w.cache.store op.cat) t) := by
  constructor
  · intro c hc
    cases hm : merge_data (dictGet (w.cache.store op.cat) op.ticker) op.data
        (keyField op.cat) with
    | none => simp [setData, hm]
    | some merged =>
        simp only [setData, hm]
        rw [save_to_db_cache, store_setStore_ne _ _ hc]
  · intro t ht
    exact setData_get_other dbOk w op op.cat t (fun hc => ht hc.2)

/-- Concrete instance of `set_frame`. -/
theorem set_frame_witness :
    (setData true initWorld
        ⟨Category.prices, "AAPL", []⟩).1.cache.store Category.companyNews =
      initWorld.cache.store Category.companyNews ∧
    dictGet ((setData true initWorld
        ⟨Category.prices, "AAPL", []⟩).1.cache.store Category.prices)
      "MSFT" = dictGet (initWorld.cache.store Category.prices) "MSFT" :=
  ⟨(set_frame true initWorld ⟨Category.prices, "AAPL", []⟩).1
      Category.companyNews (by decide),
    (set_frame true initWorld ⟨Category.prices, "AAPL", []⟩).2
      "MSFT" (by decide)⟩
